import Mathlib

/-!
# Rotating lights at variable speed (`homework/Core/Src/main.c`)

A shallow embedding of the program's three pieces:

* the delay oscillator of `speed_controller_task` (the shared `delay` and the
  `direction` flag),
* the four-state light machine `change_state` / `change_led_state` acting on
  the output register of port E,
* the start-up sequence of `main` with the fail-stop `error_handler`.

Machine integers are natural numbers; `uint32_t` arithmetic is taken modulo
`2 ^ 32` explicitly.
-/

namespace Homework

/-! ## Constants of `main.c` -/

/-- The direction value `UP` (`#define UP 0U`). -/
def UP : Nat := 0

/-- The direction value `DOWN` (`#define DOWN 1U`). -/
def DOWN : Nat := 1

/-- The constant `MIN_DELAY` (`#define MIN_DELAY 25U`). -/
def MIN_DELAY : Nat := 25

/-- The constant `MAX_DELAY` (`#define MAX_DELAY 300U`). -/
def MAX_DELAY : Nat := 300

/-- The constant `INITIAL_DELAY` (`#define INITIAL_DELAY 300U`). -/
def INITIAL_DELAY : Nat := 300

/-- The constant `DELAY_STEP` (`#define DELAY_STEP 15`). -/
def DELAY_STEP : Nat := 15

/-- State `S0` of the light machine. -/
def S0 : Nat := 0

/-- State `S1` of the light machine. -/
def S1 : Nat := 1

/-- State `S2` of the light machine. -/
def S2 : Nat := 2

/-- State `S3` of the light machine. -/
def S3 : Nat := 3

/-- Number of values of a `uint32_t`. -/
def UINT32_SIZE : Nat := 2 ^ 32

/-! ## The delay oscillator (`speed_controller_task`) -/

/-- The two globals written by `speed_controller_task`: the `volatile uint32_t delay`
and the `uint8_t direction`. -/
structure Osc where
  delay : Nat
  direction : Nat
  deriving DecidableEq

/-- The globals as initialised at program start:
`delay = INITIAL_DELAY`, `direction = UP`. -/
def oscInit : Osc := ⟨INITIAL_DELAY, UP⟩

/-- The statement `delay += DELAY_STEP` on a `uint32_t`. -/
def delayInc (delay : Nat) : Nat := (delay + DELAY_STEP) % UINT32_SIZE

/-- The statement `delay -= DELAY_STEP` on a `uint32_t`. -/
def delayDec (delay : Nat) : Nat := (delay + UINT32_SIZE - DELAY_STEP) % UINT32_SIZE

/-- What one evaluation of an inner-loop condition of `speed_controller_task` does. -/
inductive OscEvent where
  /-- The condition `delay < MAX_DELAY` held: `delay += DELAY_STEP`. -/
  | inc
  /-- The condition `delay > MIN_DELAY` held: `delay -= DELAY_STEP`. -/
  | dec
  /-- The condition failed: the loop is left and `direction` is reassigned. -/
  | flip
  deriving DecidableEq

/-- Which event the next evaluation of an inner-loop condition produces.
The outer `if(direction == UP)` selects the loop; inside a loop `direction`
is not written, so the flag alone tells which condition is evaluated. -/
def oscEvent (s : Osc) : OscEvent :=
  if s.direction = UP then
    if s.delay < MAX_DELAY then OscEvent.inc else OscEvent.flip
  else
    if s.delay > MIN_DELAY then OscEvent.dec else OscEvent.flip

/-- One oscillator step of `speed_controller_task`: one evaluation of an
inner-loop condition. Either the loop body runs (`delay` moves by
`DELAY_STEP`; the following `vTaskDelay(PAUSE)` changes no variable), or the
loop is left and `direction` is set to the other value. -/
def oscStep (s : Osc) : Osc :=
  if s.direction = UP then
    if s.delay < MAX_DELAY then { s with delay := delayInc s.delay }
    else { s with direction := DOWN }
  else
    if s.delay > MIN_DELAY then { s with delay := delayDec s.delay }
    else { s with direction := UP }

/-- The oscillator state after `n` steps. -/
def oscRun : Nat → Osc → Osc
  | 0, s => s
  | n + 1, s => oscRun n (oscStep s)

/-- The events of the first `n` steps, in order. -/
def oscTrace : Nat → Osc → List OscEvent
  | 0, _ => []
  | n + 1, s => oscEvent s :: oscTrace n (oscStep s)

/-- The value of `delay` after each of the first `n` steps, in order. -/
def oscDelays : Nat → Osc → List Nat
  | 0, _ => []
  | n + 1, s => (oscStep s).delay :: oscDelays n (oscStep s)

/-- Number of direction flips among the first `n` steps. -/
def oscFlips (n : Nat) (s : Osc) : Nat := (oscTrace n s).count OscEvent.flip

/-- Number of updates of `delay` (`+= DELAY_STEP` or `-= DELAY_STEP`) among the
first `n` steps. -/
def oscUpdates (n : Nat) (s : Osc) : Nat :=
  (oscTrace n s).count OscEvent.inc + (oscTrace n s).count OscEvent.dec

/-- Whether step number `n` (counted from 1) is an update of `delay` that brings
it back to `MAX_DELAY`, the value it starts from. -/
def returnsToMax (n : Nat) (s : Osc) : Bool :=
  decide (0 < n) && (oscEvent (oscRun (n - 1) s) != OscEvent.flip)
    && ((oscRun n s).delay == MAX_DELAY)

/-- The count `k` named in the description of an upward pass: the least
natural number with `d + DELAY_STEP * k >= MAX_DELAY`, written in closed form
(0 when `d >= MAX_DELAY`). This is a specification-side quantity, compared
with the loop `incLoop` below. -/
def upCount (d : Nat) : Nat := (MAX_DELAY - d + (DELAY_STEP - 1)) / DELAY_STEP

/-- The count `k` named in the description of a downward pass: the least
natural number with `d - DELAY_STEP * k <= MIN_DELAY`, written in closed form
(0 when `d <= MIN_DELAY`). This is a specification-side quantity, compared
with the loop `decLoop` below. -/
def downCount (d : Nat) : Nat := (d - MIN_DELAY + (DELAY_STEP - 1)) / DELAY_STEP

/-- The loop `while(delay < MAX_DELAY) { delay += DELAY_STEP; vTaskDelay(PAUSE); }`.
Returns the value of `delay` at loop exit, or `none` when `fuel` iterations
did not suffice. -/
def incLoop : Nat → Nat → Option Nat
  | 0, _ => none
  | fuel + 1, delay =>
    if delay < MAX_DELAY then incLoop fuel (delayInc delay) else some delay

/-- The loop `while(delay > MIN_DELAY) { delay -= DELAY_STEP; vTaskDelay(PAUSE); }`.
Returns the value of `delay` at loop exit, or `none` when `fuel` iterations
did not suffice. -/
def decLoop : Nat → Nat → Option Nat
  | 0, _ => none
  | fuel + 1, delay =>
    if delay > MIN_DELAY then decLoop fuel (delayDec delay) else some delay

/-- One pass of the outer `while(1)` loop of `speed_controller_task`: the
selected inner loop runs to its exit and `direction` is reassigned. -/
def speedPass (fuel : Nat) (s : Osc) : Option Osc :=
  if s.direction = UP then
    (incLoop fuel s.delay).map fun d => ⟨d, DOWN⟩
  else
    (decLoop fuel s.delay).map fun d => ⟨d, UP⟩

/-! ## Port E and the light machine (`change_state`, `change_led_state`) -/

/-- Modelled from the spec: the HAL header defining `GPIO_PIN_n` is not in the
repository; §6 describes one port with independently settable output pins, and
pin `n` is the one-bit mask `2 ^ n` of the 16-bit port register. -/
def GPIO_PIN (n : Nat) : Nat := 2 ^ n

/-- The pin of `BLUE_LED_1` (`GPIO_PIN_8`). -/
def BLUE_LED_1 : Nat := GPIO_PIN 8

/-- The pin of `RED_LED_1` (`GPIO_PIN_9`). -/
def RED_LED_1 : Nat := GPIO_PIN 9

/-- The pin of `ORANGE_LED_1` (`GPIO_PIN_10`). -/
def ORANGE_LED_1 : Nat := GPIO_PIN 10

/-- The pin of `GREEN_LED_1` (`GPIO_PIN_11`). -/
def GREEN_LED_1 : Nat := GPIO_PIN 11

/-- The pin of `BLUE_LED_2` (`GPIO_PIN_12`). -/
def BLUE_LED_2 : Nat := GPIO_PIN 12

/-- The pin of `RED_LED_2` (`GPIO_PIN_13`). -/
def RED_LED_2 : Nat := GPIO_PIN 13

/-- The pin of `ORANGE_LED_2` (`GPIO_PIN_14`). -/
def ORANGE_LED_2 : Nat := GPIO_PIN 14

/-- The pin of `GREEN_LED_2` (`GPIO_PIN_15`). -/
def GREEN_LED_2 : Nat := GPIO_PIN 15

/-- The mask `GPIO_PIN_8 | GPIO_PIN_9 | ... | GPIO_PIN_15` written three times
in `main.c`: all eight LED pins. -/
def ALL_LED_PINS : Nat :=
  GPIO_PIN 8 ||| GPIO_PIN 9 ||| GPIO_PIN 10 ||| GPIO_PIN 11
    ||| GPIO_PIN 12 ||| GPIO_PIN 13 ||| GPIO_PIN 14 ||| GPIO_PIN 15

/-- The two pin levels accepted by `HAL_GPIO_WritePin`. -/
inductive GPIO_PinState where
  | GPIO_PIN_RESET
  | GPIO_PIN_SET
  deriving DecidableEq

/-- Modelled from the spec: the vendor routine `HAL_GPIO_WritePin` is not in the
repository; §6 gives it as `write(pin_mask, value)`, driving every pin of the
mask to the given level and leaving the other pins of the port alone. The port
is represented by its 16-bit output register. -/
def HAL_GPIO_WritePin (odr : Nat) (pins : Nat) (level : GPIO_PinState) : Nat :=
  match level with
  | GPIO_PinState.GPIO_PIN_SET => odr ||| pins
  | GPIO_PinState.GPIO_PIN_RESET => odr &&& (0xFFFF ^^^ pins)

/-- The function `change_led_state` of `main.c`, as a transformer of the
output register of port E: all LED pins are driven low, then the pair of the
state is driven high. -/
def change_led_state (state : Nat) (odr : Nat) : Nat :=
  let odr := HAL_GPIO_WritePin odr ALL_LED_PINS GPIO_PinState.GPIO_PIN_RESET
  if state = S0 then
    HAL_GPIO_WritePin odr (BLUE_LED_1 ||| BLUE_LED_2) GPIO_PinState.GPIO_PIN_SET
  else if state = S1 then
    HAL_GPIO_WritePin odr (RED_LED_1 ||| RED_LED_2) GPIO_PinState.GPIO_PIN_SET
  else if state = S2 then
    HAL_GPIO_WritePin odr (ORANGE_LED_1 ||| ORANGE_LED_2) GPIO_PinState.GPIO_PIN_SET
  else if state = S3 then
    HAL_GPIO_WritePin odr (GREEN_LED_1 ||| GREEN_LED_2) GPIO_PinState.GPIO_PIN_SET
  else
    HAL_GPIO_WritePin odr ALL_LED_PINS GPIO_PinState.GPIO_PIN_RESET

/-- Whether the `switch` of `change_led_state` takes its `default` arm, the one
that leaves all LEDs off: no `case` label equals the state. -/
def ledDefaultArm (state : Nat) : Bool :=
  !(state == S0 || state == S1 || state == S2 || state == S3)

/-- The value `change_state` stores into `*pState`: the `switch` of the
Mealy machine. -/
def nextState (state : Nat) : Nat :=
  if state = S0 then S1
  else if state = S1 then S2
  else if state = S2 then S3
  else if state = S3 then S0
  else S0

/-- The function `change_state` of `main.c`: the new `*pState` together with
the output register after the call `change_led_state(pState)`. -/
def change_state (state : Nat) (odr : Nat) : Nat × Nat :=
  let state := nextState state
  (state, change_led_state state odr)

/-- The pair of LED pins that belongs to a state of the light machine, as named
in the `case` arms of `change_led_state`. -/
def ledPair (state : Nat) : Nat :=
  if state = S0 then BLUE_LED_1 ||| BLUE_LED_2
  else if state = S1 then RED_LED_1 ||| RED_LED_2
  else if state = S2 then ORANGE_LED_1 ||| ORANGE_LED_2
  else if state = S3 then GREEN_LED_1 ||| GREEN_LED_2
  else 0

/-- Whether pin `n` of the port is high. -/
def pinHigh (odr : Nat) (n : Nat) : Bool := odr.testBit n

/-- The LED pins (among pins 8..15) that are high, as pin numbers. -/
def litPins (odr : Nat) : List Nat :=
  [8, 9, 10, 11, 12, 13, 14, 15].filter fun n => pinHigh odr n

/-- The levels of the eight LED pins, the other pins masked out. -/
def ledLevels (odr : Nat) : Nat := odr &&& ALL_LED_PINS

/-! ## Start-up (`main`, `GPIO_Init`, `error_handler`) -/

/-- The two task functions handed to `xTaskCreate`. -/
inductive TaskFn where
  | led_controller_task
  | speed_controller_task
  deriving DecidableEq

/-- The calls `main` makes, in the order of the source. -/
inductive Call where
  | GPIO_Init
  | xTaskCreate (task : TaskFn)
  | error_handler
  | vTaskStartScheduler
  deriving DecidableEq

/-- Where `main` ends up: both endings are loops that are never left. -/
inductive Halt where
  /-- Spinning in the `while(1){ }` of `error_handler`, which never returns. -/
  | errorLoop
  /-- Control was handed to `vTaskStartScheduler`. -/
  | scheduler
  deriving DecidableEq

/-- The observable outcome of `main`: the output register of port E, the
calls made, and the loop in which control stays. -/
structure MainRun where
  odr : Nat
  calls : List Call
  halt : Halt
  deriving DecidableEq

/-- Modelled from the spec: the FreeRTOS headers are not in the repository; §6
gives `create_task(...) -> success|failure`, and success is the value
`pdPASS` of the signed `BaseType_t`. -/
def pdPASS : Int := 1

/-- The function `GPIO_Init` of `main.c` on the output register: the eight LED
pins are driven low. The pin-mode configuration that follows does not write
the output register. -/
def GPIO_Init (odr : Nat) : Nat :=
  HAL_GPIO_WritePin odr ALL_LED_PINS GPIO_PinState.GPIO_PIN_RESET

/-- The write performed by `error_handler` before its endless loop: the two
red LEDs are driven high. -/
def error_handler (odr : Nat) : Nat :=
  HAL_GPIO_WritePin odr (RED_LED_1 ||| RED_LED_2) GPIO_PinState.GPIO_PIN_SET

/-- The function `main` of `main.c`, with `xTaskCreate` replaced by a mock
that answers each task function with a `BaseType_t`. Since `error_handler`
never returns, nothing of `main` after a call of it is executed. -/
def main (xTaskCreate : TaskFn → Int) (odr : Nat) : MainRun :=
  let odr := GPIO_Init odr
  let result := xTaskCreate TaskFn.led_controller_task
  if result ≠ pdPASS then
    { odr := error_handler odr
      calls := [Call.GPIO_Init, Call.xTaskCreate TaskFn.led_controller_task,
        Call.error_handler]
      halt := Halt.errorLoop }
  else
    let result := xTaskCreate TaskFn.speed_controller_task
    if result ≠ pdPASS then
      { odr := error_handler odr
        calls := [Call.GPIO_Init, Call.xTaskCreate TaskFn.led_controller_task,
          Call.xTaskCreate TaskFn.speed_controller_task, Call.error_handler]
        halt := Halt.errorLoop }
    else
      { odr := odr
        calls := [Call.GPIO_Init, Call.xTaskCreate TaskFn.led_controller_task,
          Call.xTaskCreate TaskFn.speed_controller_task, Call.vTaskStartScheduler]
        halt := Halt.scheduler }

/-- Modelled from the spec: the scheduler is not in the repository; by §6 a task
function is executed by the scheduler only, so the task loops that run are
those of the created tasks once `vTaskStartScheduler` has been called, and
none before. -/
def runningTasks (r : MainRun) : List TaskFn :=
  if Call.vTaskStartScheduler ∈ r.calls then
    [TaskFn.led_controller_task, TaskFn.speed_controller_task].filter
      fun t => decide (Call.xTaskCreate t ∈ r.calls)
  else []

/-! ## The two task loops on the program variables -/

/-- The variables the two tasks work on: the local `state` of
`led_controller_task`, the output register of port E, and the globals `delay`
and `direction`. -/
structure Prog where
  state : Nat
  odr : Nat
  delay : Nat
  direction : Nat
  deriving DecidableEq

/-- The variables when `led_controller_task` enters its loop for the first
time: its local is `uint8_t state = S0`. -/
def ledTaskStart (odr delay direction : Nat) : Prog := ⟨S0, odr, delay, direction⟩

/-- One iteration of the `while(1)` loop of `led_controller_task`:
`change_state(&state)`, then `vTaskDelay(pdMS_TO_TICKS(delay))`. Returns the
variables after the iteration and the value of `delay` read for the sleep, in
milliseconds. -/
def ledTaskIter (p : Prog) : Prog × Nat :=
  let r := change_state p.state p.odr
  ({ p with state := r.1, odr := r.2 }, p.delay)

/-- The variables after `n` iterations of the loop of `led_controller_task`. -/
def ledTaskRun : Nat → Prog → Prog
  | 0, p => p
  | n + 1, p => ledTaskRun n (ledTaskIter p).1

/-- One oscillator step of `speed_controller_task` on the program variables:
the step reads and writes the globals `delay` and `direction`. -/
def speedTaskStep (p : Prog) : Prog :=
  { p with
    delay := (oscStep ⟨p.delay, p.direction⟩).delay
    direction := (oscStep ⟨p.delay, p.direction⟩).direction }

/-- An interleaving of the two tasks, one entry per scheduled unit of work: an
iteration of `led_controller_task` or an oscillator step of
`speed_controller_task`, in the order given. -/
def runTasks : List TaskFn → Prog → Prog
  | [], p => p
  | TaskFn.led_controller_task :: rest, p => runTasks rest (ledTaskIter p).1
  | TaskFn.speed_controller_task :: rest, p => runTasks rest (speedTaskStep p)

/-! ## Lemmas on the port register -/

/-- No LED pin survives the reset mask: the complement of the LED mask within
the 16-bit register has no bit in common with the LED mask. -/
theorem resetMask_and_leds : (0xFFFF ^^^ ALL_LED_PINS) &&& ALL_LED_PINS = 0 := by
  decide

/-- Clearing all LED pins and then setting a set of LED pins leaves exactly
that set high among the LED pins, whatever the register held before. -/
theorem ledLevels_clear_set (odr pins : Nat) (h : pins &&& ALL_LED_PINS = pins) :
    ledLevels
      (HAL_GPIO_WritePin
        (HAL_GPIO_WritePin odr ALL_LED_PINS GPIO_PinState.GPIO_PIN_RESET)
        pins GPIO_PinState.GPIO_PIN_SET) = pins := by
  simp only [ledLevels, HAL_GPIO_WritePin]
  rw [Nat.and_distrib_right, Nat.and_assoc, resetMask_and_leds, Nat.and_zero,
    Nat.zero_or, h]

/-- Clearing all LED pins leaves no LED pin high. -/
theorem ledLevels_clear (odr : Nat) :
    ledLevels (HAL_GPIO_WritePin odr ALL_LED_PINS GPIO_PinState.GPIO_PIN_RESET) = 0 := by
  simp only [ledLevels, HAL_GPIO_WritePin]
  rw [Nat.and_assoc, resetMask_and_leds, Nat.and_zero]

/-- The list of lit LED pins depends on the LED pins of the register only. -/
theorem litPins_ledLevels (odr : Nat) : litPins (ledLevels odr) = litPins odr := by
  have h : ∀ n, n ∈ [8, 9, 10, 11, 12, 13, 14, 15] →
      pinHigh (ledLevels odr) n = pinHigh odr n := by
    intro n hn
    have hbit : ALL_LED_PINS.testBit n = true := by
      revert n
      decide
    simp [pinHigh, ledLevels, Nat.testBit_and, hbit]
  unfold litPins
  exact List.filter_congr h

/-- For a valid state, `change_led_state` leaves exactly the pair of the state
high among the LED pins. -/
theorem ledLevels_change_led_state (state odr : Nat) (h : state < 4) :
    ledLevels (change_led_state state odr) = ledPair state := by
  have h0 : state = 0 ∨ state = 1 ∨ state = 2 ∨ state = 3 := by omega
  rcases h0 with rfl | rfl | rfl | rfl
  · exact ledLevels_clear_set odr _ (by decide)
  · exact ledLevels_clear_set odr _ (by decide)
  · exact ledLevels_clear_set odr _ (by decide)
  · exact ledLevels_clear_set odr _ (by decide)

/-- The new state chosen by `change_state` is always one of the four states. -/
theorem nextState_lt (state : Nat) : nextState state < 4 := by
  unfold nextState S0 S1 S2 S3
  split_ifs <;> decide

/-! ## The light machine -/

/-- C2: for every state `s` among `S0..S3` (values 0..3) the state written by
`change_state` is the successor `(s + 1) mod 4` of `s` in the cycle
`S0 -> S1 -> S2 -> S3 -> S0`, no other valid state has the same successor, and
four calls of `change_state` in a row give back `s`, whatever the port held. -/
theorem change_state_cycle (s odr : Nat) (h : s < 4) :
    (change_state s odr).1 = (s + 1) % 4
      ∧ (∀ t, t < 4 → (change_state t odr).1 = (change_state s odr).1 → t = s)
      ∧ ((fun p : Nat × Nat => change_state p.1 p.2)^[4] (s, odr)).1 = s := by
  have hs : s = 0 ∨ s = 1 ∨ s = 2 ∨ s = 3 := by omega
  refine ⟨?_, ?_, ?_⟩
  · rcases hs with rfl | rfl | rfl | rfl <;> rfl
  · intro t ht
    have ht4 : t = 0 ∨ t = 1 ∨ t = 2 ∨ t = 3 := by omega
    rcases hs with rfl | rfl | rfl | rfl <;> rcases ht4 with rfl | rfl | rfl | rfl <;>
      simp [change_state, nextState, S0, S1, S2, S3]
  · rcases hs with rfl | rfl | rfl | rfl <;>
      simp [Function.iterate_succ, change_state, nextState, S0, S1, S2, S3]

/-- Witness of C2 at state `S3` with all port pins high: the successor is `S0`. -/
theorem change_state_cycle_witness :
    3 < 4 ∧ (change_state 3 0xFFFF).1 = (3 + 1) % 4
      ∧ (∀ t, t < 4 → (change_state t 0xFFFF).1 = (change_state 3 0xFFFF).1 → t = 3)
      ∧ ((fun p : Nat × Nat => change_state p.1 p.2)^[4] (3, 0xFFFF)).1 = 3 :=
  ⟨by decide, change_state_cycle 3 0xFFFF (by decide)⟩

/-- C3: for every state value outside `{0,1,2,3}` (in particular every
`uint8_t` value 4..255) `change_state` sets the state to `S0`; and for every
input whatsoever the state after `change_state` is one of the four valid
states. -/
theorem change_state_out_of_range (s odr : Nat) (h : 4 ≤ s) :
    (change_state s odr).1 = S0
      ∧ ∀ t odr2 : Nat, (change_state t odr2).1 ∈ [S0, S1, S2, S3] := by
  constructor
  · have h0 : s ≠ 0 := by omega
    have h1 : s ≠ 1 := by omega
    have h2 : s ≠ 2 := by omega
    have h3 : s ≠ 3 := by omega
    simp [change_state, nextState, S0, S1, S2, S3, h0, h1, h2, h3]
  · intro t odr2
    simp only [change_state, nextState, S0, S1, S2, S3]
    split_ifs <;> simp

/-- Witness of C3 at the largest `uint8_t` value, 255. -/
theorem change_state_out_of_range_witness :
    4 ≤ 255 ∧ (change_state 255 0).1 = S0
      ∧ ∀ t odr2 : Nat, (change_state t odr2).1 ∈ [S0, S1, S2, S3] :=
  ⟨by decide, change_state_out_of_range 255 0 (by decide)⟩

/-- C4: for every state `s` among `S0..S3` and every prior content of the port
register, after `change_led_state s` exactly 2 of the 8 LED pins (pins 8..15)
are high, namely the pair of `s` (`S0`: blue, `S1`: red, `S2`: orange, `S3`:
green); the four pairs are pairwise disjoint and together make up the 8 LED
pins. -/
theorem change_led_state_two_of_eight (s odr : Nat) (h : s < 4) :
    (litPins (change_led_state s odr)).length = 2
      ∧ ledLevels (change_led_state s odr) = ledPair s
      ∧ (ledPair S0 = BLUE_LED_1 ||| BLUE_LED_2 ∧ ledPair S1 = RED_LED_1 ||| RED_LED_2
          ∧ ledPair S2 = ORANGE_LED_1 ||| ORANGE_LED_2
          ∧ ledPair S3 = GREEN_LED_1 ||| GREEN_LED_2)
      ∧ (∀ a b, a < 4 → b < 4 → a ≠ b → ledPair a &&& ledPair b = 0)
      ∧ ledPair S0 ||| ledPair S1 ||| ledPair S2 ||| ledPair S3 = ALL_LED_PINS := by
  have hlev := ledLevels_change_led_state s odr h
  refine ⟨?_, hlev, by decide, ?_, by decide⟩
  · rw [← litPins_ledLevels, hlev]
    have hs : s = 0 ∨ s = 1 ∨ s = 2 ∨ s = 3 := by omega
    rcases hs with rfl | rfl | rfl | rfl <;> decide
  · intro a b ha hb
    have ha4 : a = 0 ∨ a = 1 ∨ a = 2 ∨ a = 3 := by omega
    have hb4 : b = 0 ∨ b = 1 ∨ b = 2 ∨ b = 3 := by omega
    rcases ha4 with rfl | rfl | rfl | rfl <;> rcases hb4 with rfl | rfl | rfl | rfl <;>
      decide

/-- Witness of C4 at state `S2` with all 16 port pins high beforehand: pins 10
and 14 are the two lit LED pins. -/
theorem change_led_state_two_of_eight_witness :
    2 < 4 ∧ litPins (change_led_state 2 0xFFFF) = [10, 14]
      ∧ (litPins (change_led_state 2 0xFFFF)).length = 2 :=
  ⟨by decide, by decide, (change_led_state_two_of_eight 2 0xFFFF (by decide)).1⟩

/-- C5: for every input state (valid or not) and every prior content of the
port register, after one call of `change_state` the LED pins show exactly the
pair of the new state, so exactly two LED pins are high, and the new state
never selects the all-off `default` arm of `change_led_state`. -/
theorem change_state_one_pair_lit (s odr : Nat) :
    ledLevels (change_state s odr).2 = ledPair (change_state s odr).1
      ∧ (litPins (change_state s odr).2).length = 2
      ∧ ledDefaultArm (change_state s odr).1 = false
      ∧ ledLevels (change_state s odr).2 ≠ 0 := by
  have hlt : nextState s < 4 := nextState_lt s
  have hlev := ledLevels_change_led_state (nextState s) odr hlt
  have hs : nextState s = 0 ∨ nextState s = 1 ∨ nextState s = 2 ∨ nextState s = 3 := by
    omega
  simp only [change_state]
  refine ⟨hlev, ?_, ?_, ?_⟩
  · rw [← litPins_ledLevels, hlev]
    rcases hs with h | h | h | h <;> rw [h] <;> decide
  · rcases hs with h | h | h | h <;> rw [h] <;> decide
  · rw [hlev]
    rcases hs with h | h | h | h <;> rw [h] <;> decide

/-! ## The delay oscillator -/

/-- Running `m + n` steps is running `m` steps and then `n` more. -/
theorem oscRun_add (m n : Nat) (s : Osc) : oscRun (m + n) s = oscRun n (oscRun m s) := by
  induction m generalizing s with
  | zero => simp [oscRun]
  | succ m ih => rw [Nat.succ_add, oscRun, oscRun, ih]

/-- The events of `m + n` steps are those of the first `m` followed by those of
the next `n`. -/
theorem oscTrace_add (m n : Nat) (s : Osc) :
    oscTrace (m + n) s = oscTrace m s ++ oscTrace n (oscRun m s) := by
  induction m generalizing s with
  | zero => simp [oscTrace, oscRun]
  | succ m ih => rw [Nat.succ_add, oscTrace, oscTrace, oscRun, ih, List.cons_append]

/-- The update count of `m + n` steps splits at step `m`. -/
theorem oscUpdates_add (m n : Nat) (s : Osc) :
    oscUpdates (m + n) s = oscUpdates m s + oscUpdates n (oscRun m s) := by
  simp only [oscUpdates, oscTrace_add, List.count_append]
  omega

/-- From the initial globals, 40 steps lead back to the initial globals. -/
theorem oscRun_forty : oscRun 40 oscInit = oscInit := by decide

/-- Every multiple of 40 steps leads back to the initial globals. -/
theorem oscRun_forty_mul (k : Nat) : oscRun (40 * k) oscInit = oscInit := by
  induction k with
  | zero => rfl
  | succ k ih => rw [Nat.mul_succ, oscRun_add, ih, oscRun_forty]

/-- The state after `n` steps only depends on `n` modulo 40. -/
theorem oscRun_mod (n : Nat) : oscRun n oscInit = oscRun (n % 40) oscInit := by
  conv_lhs => rw [← Nat.div_add_mod n 40]
  rw [oscRun_add, oscRun_forty_mul]

/-- A property checked on the first 40 reachable states holds on every
reachable state. -/
theorem oscRun_forall (P : Osc → Prop) (h : ∀ k, k < 40 → P (oscRun k oscInit)) (n : Nat) :
    P (oscRun n oscInit) := by
  rw [oscRun_mod]
  exact h _ (Nat.mod_lt _ (by decide))

/-- A decrement step: taken only above `MIN_DELAY`, it lowers `delay` by
exactly `DELAY_STEP` and keeps the direction. -/
theorem oscStep_dec (s : Osc) (h : s.delay ≤ MAX_DELAY) :
    oscEvent s = OscEvent.dec →
      s.delay > MIN_DELAY ∧ (oscStep s).delay + DELAY_STEP = s.delay
        ∧ (oscStep s).direction = s.direction := by
  obtain ⟨d, dir⟩ := s
  simp only [oscEvent, oscStep, delayDec, UINT32_SIZE, MAX_DELAY, MIN_DELAY, DELAY_STEP, UP] at *
  split_ifs <;> simp
  omega

/-- An increment step raises `delay` by exactly `DELAY_STEP` and keeps the
direction. -/
theorem oscStep_inc (s : Osc) (h : s.delay ≤ MAX_DELAY) :
    oscEvent s = OscEvent.inc →
      (oscStep s).delay = s.delay + DELAY_STEP
        ∧ (oscStep s).direction = s.direction := by
  obtain ⟨d, dir⟩ := s
  simp only [oscEvent, oscStep, delayInc, UINT32_SIZE, MAX_DELAY, MIN_DELAY, DELAY_STEP, UP] at *
  split_ifs <;> simp
  omega

/-- A flip step leaves `delay` alone; it turns `UP` into `DOWN` at `MAX_DELAY`
and any other direction into `UP` at or below `MIN_DELAY`. -/
theorem oscStep_flip (s : Osc) (h : s.delay ≤ MAX_DELAY) :
    oscEvent s = OscEvent.flip →
      (oscStep s).delay = s.delay
        ∧ (s.direction = UP → s.delay = MAX_DELAY ∧ (oscStep s).direction = DOWN)
        ∧ (s.direction ≠ UP → s.delay ≤ MIN_DELAY ∧ (oscStep s).direction = UP) := by
  obtain ⟨d, dir⟩ := s
  simp only [oscEvent, oscStep, MAX_DELAY, MIN_DELAY, UP, DOWN] at *
  split_ifs <;> simp_all
  omega

/-- C1 (evaluation at the program's own start): the start `delay = 300`,
`direction = UP` lies within `[MIN_DELAY, MAX_DELAY]`, yet the 20th oscillator
step is the update `delay -= 15` taken at `delay = 30`, and it leaves
`delay = 15`, below `MIN_DELAY`; the bounds `[25, 300]` are not kept. -/
theorem delay_drops_below_min :
    (MIN_DELAY ≤ oscInit.delay ∧ oscInit.delay ≤ MAX_DELAY)
      ∧ oscRun 19 oscInit = ⟨30, DOWN⟩
      ∧ oscEvent (oscRun 19 oscInit) = OscEvent.dec
      ∧ oscRun 20 oscInit = ⟨15, DOWN⟩
      ∧ (oscRun 20 oscInit).delay < MIN_DELAY := by
  decide

/-- C6 (as stated, refuted): from `delay = 300`, `direction = UP` the descent
passes from 30 to 15 and the flip to `UP` happens at `delay = 15`; `delay` does
not take the value `MIN_DELAY = 25` anywhere in the period of 40 steps. -/
theorem descent_skips_min_delay :
    oscDelays 21 oscInit
        = [300, 285, 270, 255, 240, 225, 210, 195, 180, 165, 150, 135, 120, 105, 90,
            75, 60, 45, 30, 15, 15]
      ∧ oscEvent (oscRun 20 oscInit) = OscEvent.flip
      ∧ oscRun 21 oscInit = ⟨15, UP⟩
      ∧ (oscDelays 40 oscInit).all (fun d => d != MIN_DELAY) = true
      ∧ oscRun 40 oscInit = oscInit := by
  decide

/-- C6 (amended): from `delay = 300`, `direction = UP` the first step flips the
direction to `DOWN`; then `delay` decreases by exactly 15 at each update, an
update being made exactly while `delay > MIN_DELAY`; then the direction flips
to `UP` and `delay` increases by exactly 15 at each update until it equals
300 again, where the direction flips to `DOWN`. The values never exceed 300, the
events of a period are one flip, 19 decrements, one flip, 19 increments, and
the waveform repeats with that period. -/
theorem triangle_wave_from_start :
    oscTrace 40 oscInit
        = OscEvent.flip :: (List.replicate 19 OscEvent.dec
            ++ OscEvent.flip :: List.replicate 19 OscEvent.inc)
      ∧ (∀ n, oscRun (n + 40) oscInit = oscRun n oscInit)
      ∧ ∀ n,
          (oscEvent (oscRun n oscInit) = OscEvent.dec →
            (oscRun n oscInit).delay > MIN_DELAY
              ∧ (oscRun (n + 1) oscInit).delay + DELAY_STEP = (oscRun n oscInit).delay
              ∧ (oscRun (n + 1) oscInit).direction = (oscRun n oscInit).direction)
          ∧ (oscEvent (oscRun n oscInit) = OscEvent.inc →
            (oscRun (n + 1) oscInit).delay = (oscRun n oscInit).delay + DELAY_STEP
              ∧ (oscRun (n + 1) oscInit).direction = (oscRun n oscInit).direction)
          ∧ (oscEvent (oscRun n oscInit) = OscEvent.flip →
            (oscRun (n + 1) oscInit).delay = (oscRun n oscInit).delay
              ∧ ((oscRun n oscInit).direction = UP →
                  (oscRun n oscInit).delay = MAX_DELAY
                    ∧ (oscRun (n + 1) oscInit).direction = DOWN)
              ∧ ((oscRun n oscInit).direction ≠ UP →
                  (oscRun n oscInit).delay ≤ MIN_DELAY
                    ∧ (oscRun (n + 1) oscInit).direction = UP))
          ∧ (oscRun n oscInit).delay ≤ MAX_DELAY := by
  refine ⟨by decide, ?_, ?_⟩
  · intro n
    rw [Nat.add_comm, oscRun_add, oscRun_forty]
  · intro n
    have hstep : oscRun (n + 1) oscInit = oscStep (oscRun n oscInit) := by
      rw [oscRun_add]; rfl
    rw [hstep]
    have hmax : (oscRun n oscInit).delay ≤ MAX_DELAY :=
      oscRun_forall (fun s => s.delay ≤ MAX_DELAY) (by decide) n
    exact ⟨oscStep_dec _ hmax, oscStep_inc _ hmax, oscStep_flip _ hmax, hmax⟩

/-- C7: in 40 oscillator steps of `speed_controller_task` from `delay = 300`,
`direction = UP`, a step being one evaluation of an inner-loop condition, the
direction flag flips exactly twice. -/
theorem forty_steps_two_flips : oscFlips 40 oscInit = 2 := by
  decide

/-- C8: from `delay = 300`, `direction = UP` the first pass of the outer loop
terminates, performs no update of `delay` (its only step is the loop exit,
`delay` is still 300) and sets `direction` to `DOWN`; the first change of
`delay` afterwards is a decrement, to 285. -/
theorem first_pass_only_flips (fuel : Nat) :
    speedPass (fuel + 1) oscInit = some ⟨INITIAL_DELAY, DOWN⟩
      ∧ oscTrace 1 oscInit = [OscEvent.flip]
      ∧ oscRun 1 oscInit = ⟨INITIAL_DELAY, DOWN⟩
      ∧ oscTrace 2 oscInit = [OscEvent.flip, OscEvent.dec]
      ∧ oscDelays 2 oscInit = [300, 285] := by
  refine ⟨?_, by decide, by decide, by decide, by decide⟩
  simp [speedPass, incLoop, oscInit, UP, INITIAL_DELAY, MAX_DELAY]

/-- C9 (as stated, refuted): from `delay = 300`, `direction = UP` the updates
that bring `delay` back to 300 are steps 40 and 80 of the first 80, and 38
updates of `delay` lie between two successive returns, whereas
`2 * (MAX_DELAY - MIN_DELAY) / DELAY_STEP` is 36 in integer arithmetic and no
whole number at all in exact arithmetic (`38 * 15` and every other multiple of
15 differs from `2 * 275`). -/
theorem period_differs_from_formula :
    (List.range 81).filter (fun n => returnsToMax n oscInit) = [40, 80]
      ∧ oscUpdates 40 oscInit = 38
      ∧ oscUpdates 80 oscInit - oscUpdates 40 oscInit = 38
      ∧ 2 * (MAX_DELAY - MIN_DELAY) / DELAY_STEP = 36
      ∧ 38 * DELAY_STEP ≠ 2 * (MAX_DELAY - MIN_DELAY)
      ∧ (2 * (MAX_DELAY - MIN_DELAY)) % DELAY_STEP ≠ 0 := by
  decide

/-- C9 (amended): the waveform from `delay = 300`, `direction = UP` repeats
indefinitely, a step being one update of `delay` by exactly `+15` or `-15`;
the updates that bring `delay` back to 300 are exactly the steps whose number
is a positive multiple of 40, and the number of updates of `delay` between two
successive returns is 38, which is `2 * ceil((MAX_DELAY - MIN_DELAY) / DELAY_STEP)`. -/
theorem period_thirty_eight_updates :
    (∀ n, oscRun (n + 40) oscInit = oscRun n oscInit)
      ∧ (∀ n,
          (oscEvent (oscRun n oscInit) = OscEvent.inc →
            (oscRun (n + 1) oscInit).delay = (oscRun n oscInit).delay + DELAY_STEP)
          ∧ (oscEvent (oscRun n oscInit) = OscEvent.dec →
            (oscRun (n + 1) oscInit).delay + DELAY_STEP = (oscRun n oscInit).delay))
      ∧ (∀ n, returnsToMax n oscInit = true ↔ 0 < n ∧ n % 40 = 0)
      ∧ (∀ k, oscUpdates (40 * (k + 1)) oscInit = oscUpdates (40 * k) oscInit + 38)
      ∧ 38 = 2 * ((MAX_DELAY - MIN_DELAY + DELAY_STEP - 1) / DELAY_STEP) := by
  refine ⟨?_, ?_, ?_, ?_, by decide⟩
  · intro n
    rw [Nat.add_comm, oscRun_add, oscRun_forty]
  · intro n
    have hstep : oscRun (n + 1) oscInit = oscStep (oscRun n oscInit) := by
      rw [oscRun_add]; rfl
    have hmax : (oscRun n oscInit).delay ≤ MAX_DELAY :=
      oscRun_forall (fun s => s.delay ≤ MAX_DELAY) (by decide) n
    rw [hstep]
    exact ⟨fun h => (oscStep_inc _ hmax h).1, fun h => (oscStep_dec _ hmax h).2.1⟩
  · intro n
    cases n with
    | zero => simp [returnsToMax]
    | succ m =>
      have h40 : ∀ k, k < 40 →
          (((oscEvent (oscRun k oscInit) != OscEvent.flip)
              && ((oscStep (oscRun k oscInit)).delay == MAX_DELAY)) = true ↔ k = 39) := by
        decide
      have hstep : oscRun (m + 1) oscInit = oscStep (oscRun m oscInit) := by
        rw [oscRun_add]; rfl
      have hm := h40 (m % 40) (Nat.mod_lt _ (by decide))
      rw [← oscRun_mod] at hm
      simp only [returnsToMax, hstep, Nat.add_sub_cancel, Nat.succ_pos, decide_True,
        Bool.true_and, true_and]
      rw [hm]
      omega
  · intro k
    rw [Nat.mul_succ, oscUpdates_add, oscRun_forty_mul]
    have h : oscUpdates 40 oscInit = 38 := by decide
    rw [h]

/-- C10: with `xTaskCreate` mocked, if either of the two calls in `main` returns
a value other than `pdPASS`, then `error_handler` is entered as the last call
of `main` and control stays in its loop, `vTaskStartScheduler` is not called and
no task loop runs; if the first call fails the second `xTaskCreate` is not
attempted; and `vTaskStartScheduler` is called if and only if both calls
returned `pdPASS`. -/
theorem main_fail_stop (xTaskCreate : TaskFn → Int) (odr : Nat) :
    ((xTaskCreate TaskFn.led_controller_task ≠ pdPASS
          ∨ xTaskCreate TaskFn.speed_controller_task ≠ pdPASS) →
        (main xTaskCreate odr).halt = Halt.errorLoop
          ∧ (main xTaskCreate odr).calls.getLast? = some Call.error_handler
          ∧ Call.vTaskStartScheduler ∉ (main xTaskCreate odr).calls
          ∧ runningTasks (main xTaskCreate odr) = [])
      ∧ (xTaskCreate TaskFn.led_controller_task ≠ pdPASS →
          Call.xTaskCreate TaskFn.speed_controller_task ∉ (main xTaskCreate odr).calls)
      ∧ (Call.vTaskStartScheduler ∈ (main xTaskCreate odr).calls
          ↔ xTaskCreate TaskFn.led_controller_task = pdPASS
            ∧ xTaskCreate TaskFn.speed_controller_task = pdPASS)
      ∧ ((main xTaskCreate odr).halt = Halt.scheduler
          ↔ xTaskCreate TaskFn.led_controller_task = pdPASS
            ∧ xTaskCreate TaskFn.speed_controller_task = pdPASS) := by
  by_cases h1 : xTaskCreate TaskFn.led_controller_task = pdPASS <;>
    by_cases h2 : xTaskCreate TaskFn.speed_controller_task = pdPASS <;>
    simp [main, runningTasks, h1, h2]

/-- Witness of C10 with a mock under which the first creation succeeds and the
second fails with the value 0: `main` ends in the loop of `error_handler`
without starting the scheduler. -/
theorem main_fail_stop_witness :
    (main (fun t => if t = TaskFn.led_controller_task then 1 else 0) 0).halt
        = Halt.errorLoop
      ∧ (main (fun t => if t = TaskFn.led_controller_task then 1 else 0) 0).calls.getLast?
        = some Call.error_handler
      ∧ Call.vTaskStartScheduler
        ∉ (main (fun t => if t = TaskFn.led_controller_task then 1 else 0) 0).calls
      ∧ runningTasks (main (fun t => if t = TaskFn.led_controller_task then 1 else 0) 0)
        = [] :=
  (main_fail_stop (fun t => if t = TaskFn.led_controller_task then 1 else 0) 0).1
    (Or.inr (by decide))

/-! ## The error pattern and the task loops -/

/-- After `GPIO_Init`, the write of `error_handler` leaves exactly the two red
LED pins high among the LED pins. -/
theorem ledLevels_error_handler (odr : Nat) :
    ledLevels (error_handler (GPIO_Init odr)) = RED_LED_1 ||| RED_LED_2 :=
  ledLevels_clear_set odr _ (by decide)

/-- When a task creation fails, the port register at the halt is the one
written by `error_handler` right after `GPIO_Init`. -/
theorem main_odr_of_failure (xTaskCreate : TaskFn → Int) (odr : Nat)
    (h : xTaskCreate TaskFn.led_controller_task ≠ pdPASS
      ∨ xTaskCreate TaskFn.speed_controller_task ≠ pdPASS) :
    (main xTaskCreate odr).odr = error_handler (GPIO_Init odr) := by
  by_cases h1 : xTaskCreate TaskFn.led_controller_task = pdPASS <;>
    by_cases h2 : xTaskCreate TaskFn.speed_controller_task = pdPASS <;>
    simp_all [main]

/-- C11: when `main` reaches `error_handler`, whichever of the two task
creations failed and whatever the port held at reset, `GPIO_Init` has driven
all 8 LED pins low and at the permanent halt exactly `RED_LED_1` and
`RED_LED_2` (pins 9 and 13) are high, the other six LED pins being low. -/
theorem error_pattern_two_red (xTaskCreate : TaskFn → Int) (odr : Nat)
    (h : xTaskCreate TaskFn.led_controller_task ≠ pdPASS
      ∨ xTaskCreate TaskFn.speed_controller_task ≠ pdPASS) :
    (main xTaskCreate odr).halt = Halt.errorLoop
      ∧ ledLevels (GPIO_Init odr) = 0
      ∧ ledLevels (main xTaskCreate odr).odr = RED_LED_1 ||| RED_LED_2
      ∧ litPins (main xTaskCreate odr).odr = [9, 13] := by
  have hodr := main_odr_of_failure xTaskCreate odr h
  refine ⟨?_, ledLevels_clear odr, ?_, ?_⟩
  · by_cases h1 : xTaskCreate TaskFn.led_controller_task = pdPASS <;>
      by_cases h2 : xTaskCreate TaskFn.speed_controller_task = pdPASS <;>
      simp_all [main]
  · rw [hodr]
    exact ledLevels_error_handler odr
  · rw [hodr, ← litPins_ledLevels, ledLevels_error_handler]
    decide

/-- Witness of C11 with all 16 port pins high at reset and a mock whose second
creation fails with the value -1. -/
theorem error_pattern_two_red_witness :
    (main (fun t => if t = TaskFn.led_controller_task then 1 else -1) 0xFFFF).halt
        = Halt.errorLoop
      ∧ ledLevels (GPIO_Init 0xFFFF) = 0
      ∧ ledLevels (main (fun t => if t = TaskFn.led_controller_task then 1 else -1) 0xFFFF).odr
        = RED_LED_1 ||| RED_LED_2
      ∧ litPins (main (fun t => if t = TaskFn.led_controller_task then 1 else -1) 0xFFFF).odr
        = [9, 13] :=
  error_pattern_two_red (fun t => if t = TaskFn.led_controller_task then 1 else -1) 0xFFFF
    (Or.inr (by decide))

/-- The light state and the port register after `n` iterations of
`led_controller_task` depend on the light state and the port register only. -/
theorem ledTaskRun_light (n : Nat) (p q : Prog) (hs : p.state = q.state)
    (ho : p.odr = q.odr) :
    (ledTaskRun n p).state = (ledTaskRun n q).state
      ∧ (ledTaskRun n p).odr = (ledTaskRun n q).odr := by
  induction n generalizing p q with
  | zero => exact ⟨hs, ho⟩
  | succ n ih =>
    simp only [ledTaskRun]
    apply ih
    · simp [ledTaskIter, hs, ho]
    · simp [ledTaskIter, hs, ho]

/-- Iterations of `led_controller_task` leave `delay` and `direction` as they
were. -/
theorem ledTaskRun_globals (n : Nat) (p : Prog) :
    (ledTaskRun n p).delay = p.delay ∧ (ledTaskRun n p).direction = p.direction := by
  induction n generalizing p with
  | zero => exact ⟨rfl, rfl⟩
  | succ n ih =>
    simp only [ledTaskRun]
    exact ih (ledTaskIter p).1

/-- The `n + 1`-st iteration of `led_controller_task` is one iteration after
the first `n`. -/
theorem ledTaskRun_succ (n : Nat) (p : Prog) :
    ledTaskRun (n + 1) p = (ledTaskIter (ledTaskRun n p)).1 := by
  induction n generalizing p with
  | zero => rfl
  | succ n ih =>
    rw [ledTaskRun, ih]
    rfl

/-- From a valid light state `s`, the state after `n` iterations is
`(s + n) mod 4`. -/
theorem ledTaskRun_state (n : Nat) (p : Prog) (h : p.state < 4) :
    (ledTaskRun n p).state = (p.state + n) % 4 := by
  induction n generalizing p with
  | zero => simp [ledTaskRun, Nat.mod_eq_of_lt h]
  | succ n ih =>
    have hnext : (ledTaskIter p).1.state = (p.state + 1) % 4 := by
      have hs : p.state = 0 ∨ p.state = 1 ∨ p.state = 2 ∨ p.state = 3 := by omega
      rcases hs with h0 | h0 | h0 | h0 <;>
        simp [ledTaskIter, change_state, nextState, S0, S1, S2, S3, h0]
    rw [ledTaskRun, ih _ (by rw [hnext]; exact Nat.mod_lt _ (by decide)), hnext]
    omega

/-- After every iteration of `led_controller_task` the LED pins show the pair
of the state then held. -/
theorem ledTaskRun_levels (n : Nat) (p : Prog) :
    ledLevels (ledTaskRun (n + 1) p).odr = ledPair (ledTaskRun (n + 1) p).state := by
  rw [ledTaskRun_succ]
  exact ledLevels_change_led_state _ _ (nextState_lt _)

/-- C12: on the explicit program variables (light state, port register,
`delay`, `direction`), one iteration of `led_controller_task` acts as
`change_state` on the light state and the port, reads `delay` for its sleep and
leaves `delay` and `direction` unchanged; every oscillator step of
`speed_controller_task` acts as the oscillator on `delay` and `direction` and
leaves the light state and the port unchanged. Hence after any interleaving of
the two, `delay` and `direction` are what the oscillator steps alone produce
and the light state and the port are what the LED iterations alone produce. -/
theorem tasks_frame (p : Prog) (sched : List TaskFn) :
    ((ledTaskIter p).1.delay = p.delay ∧ (ledTaskIter p).1.direction = p.direction
        ∧ (ledTaskIter p).2 = p.delay
        ∧ ((ledTaskIter p).1.state, (ledTaskIter p).1.odr) = change_state p.state p.odr)
      ∧ ((speedTaskStep p).state = p.state ∧ (speedTaskStep p).odr = p.odr
        ∧ (⟨(speedTaskStep p).delay, (speedTaskStep p).direction⟩ : Osc)
          = oscStep ⟨p.delay, p.direction⟩)
      ∧ ((⟨(runTasks sched p).delay, (runTasks sched p).direction⟩ : Osc)
          = oscRun (sched.count TaskFn.speed_controller_task) ⟨p.delay, p.direction⟩
        ∧ (runTasks sched p).state
          = (ledTaskRun (sched.count TaskFn.led_controller_task) p).state
        ∧ (runTasks sched p).odr
          = (ledTaskRun (sched.count TaskFn.led_controller_task) p).odr) := by
  refine ⟨⟨rfl, rfl, rfl, rfl⟩, ⟨rfl, rfl, rfl⟩, ?_⟩
  induction sched generalizing p with
  | nil => exact ⟨rfl, rfl, rfl⟩
  | cons t rest ih =>
    cases t with
    | led_controller_task =>
      obtain ⟨h1, h2, h3⟩ := ih (ledTaskIter p).1
      simp only [runTasks, List.count_cons_self]
      rw [List.count_cons_of_ne (by decide)]
      exact ⟨h1, h2, h3⟩
    | speed_controller_task =>
      obtain ⟨h1, h2, h3⟩ := ih (speedTaskStep p)
      obtain ⟨hs, ho⟩ := ledTaskRun_light (rest.count TaskFn.led_controller_task)
        (speedTaskStep p) p rfl rfl
      simp only [runTasks, List.count_cons_self]
      rw [List.count_cons_of_ne (by decide)]
      refine ⟨?_, h2.trans hs, h3.trans ho⟩
      rw [h1]
      rfl

/-- C14: `led_controller_task` starts with state `S0` and advances before it
renders, so for every `n >= 1` the state held after the `n`-th iteration is
`n mod 4` and the LED pins show the pair of that state; the first pattern
displayed is the red pair of `S1`, and the blue pair of `S0` is displayed on
the 4th iteration and on none of the first three. -/
theorem led_task_trace (odr delay direction n : Nat) (h : 1 ≤ n) :
    (ledTaskRun n (ledTaskStart odr delay direction)).state = n % 4
      ∧ ledLevels (ledTaskRun n (ledTaskStart odr delay direction)).odr = ledPair (n % 4)
      ∧ ledLevels (ledTaskRun 1 (ledTaskStart odr delay direction)).odr
        = RED_LED_1 ||| RED_LED_2
      ∧ ledLevels (ledTaskRun 4 (ledTaskStart odr delay direction)).odr
        = BLUE_LED_1 ||| BLUE_LED_2
      ∧ (n < 4 →
        ledLevels (ledTaskRun n (ledTaskStart odr delay direction)).odr
          ≠ BLUE_LED_1 ||| BLUE_LED_2) := by
  have hstate : ∀ m, (ledTaskRun m (ledTaskStart odr delay direction)).state = m % 4 := by
    intro m
    rw [ledTaskRun_state m _ (by simp [ledTaskStart, S0])]
    simp [ledTaskStart, S0]
  have hlev : ∀ m, ledLevels (ledTaskRun (m + 1) (ledTaskStart odr delay direction)).odr
      = ledPair ((m + 1) % 4) := by
    intro m
    rw [ledTaskRun_levels, hstate]
  obtain ⟨m, rfl⟩ : ∃ m, n = m + 1 := ⟨n - 1, by omega⟩
  refine ⟨hstate _, hlev m, ?_, ?_, ?_⟩
  · rw [hlev 0]
    decide
  · rw [hlev 3]
    decide
  · intro hlt
    rw [hlev m]
    have hm : m = 0 ∨ m = 1 ∨ m = 2 := by omega
    rcases hm with rfl | rfl | rfl <;> decide

/-- Witness of C14 at the 2nd iteration, from a port with all pins high: the
state is `S2` and the orange pair is shown. -/
theorem led_task_trace_witness :
    1 ≤ 2
      ∧ (ledTaskRun 2 (ledTaskStart 0xFFFF 300 0)).state = 2 % 4
      ∧ ledLevels (ledTaskRun 2 (ledTaskStart 0xFFFF 300 0)).odr = ledPair (2 % 4)
      ∧ ledLevels (ledTaskRun 1 (ledTaskStart 0xFFFF 300 0)).odr = RED_LED_1 ||| RED_LED_2
      ∧ ledLevels (ledTaskRun 4 (ledTaskStart 0xFFFF 300 0)).odr = BLUE_LED_1 ||| BLUE_LED_2
      ∧ (2 < 4 →
        ledLevels (ledTaskRun 2 (ledTaskStart 0xFFFF 300 0)).odr
          ≠ BLUE_LED_1 ||| BLUE_LED_2) :=
  ⟨by decide, led_task_trace 0xFFFF 300 0 2 (by decide)⟩

/-! ## The inner loops of `speed_controller_task` -/

/-- Below `MAX_DELAY` the statement `delay += DELAY_STEP` does not wrap. -/
theorem delayInc_of_lt (d : Nat) (h : d < MAX_DELAY) : delayInc d = d + DELAY_STEP := by
  simp only [delayInc, UINT32_SIZE, MAX_DELAY, DELAY_STEP] at *
  omega

/-- Above `MIN_DELAY` the statement `delay -= DELAY_STEP` on a `uint32_t` does
not wrap. -/
theorem delayDec_of_gt (d : Nat) (hd : d < UINT32_SIZE) (h : MIN_DELAY < d) :
    delayDec d = d - DELAY_STEP := by
  simp only [delayDec, UINT32_SIZE, MIN_DELAY, DELAY_STEP] at *
  omega

/-- The closed form `upCount` is the least `k` with
`d + DELAY_STEP * k >= MAX_DELAY`. -/
theorem upCount_least (d : Nat) :
    MAX_DELAY ≤ d + DELAY_STEP * upCount d
      ∧ ∀ j, j < upCount d → d + DELAY_STEP * j < MAX_DELAY := by
  simp only [upCount, MAX_DELAY, DELAY_STEP]
  constructor
  · omega
  · intro j hj
    omega

/-- The closed form `downCount` is the least `k` with
`d - DELAY_STEP * k <= MIN_DELAY`, read over the integers. -/
theorem downCount_least (d : Nat) :
    d ≤ MIN_DELAY + DELAY_STEP * downCount d
      ∧ ∀ j, j < downCount d → MIN_DELAY + DELAY_STEP * j < d := by
  simp only [downCount, MIN_DELAY, DELAY_STEP]
  constructor
  · omega
  · intro j hj
    omega

/-- The upward loop makes exactly `k` iterations when `k` is the least count
that reaches `MAX_DELAY`: it exits with `d + DELAY_STEP * k` as soon as the fuel
allows `k + 1` evaluations of its condition, and not before. -/
theorem incLoop_spec (k d : Nat) (hk : MAX_DELAY ≤ d + DELAY_STEP * k)
    (hmin : ∀ j, j < k → d + DELAY_STEP * j < MAX_DELAY) (fuel : Nat) :
    incLoop fuel d = if k < fuel then some (d + DELAY_STEP * k) else none := by
  induction k generalizing d fuel with
  | zero =>
    cases fuel with
    | zero => simp [incLoop]
    | succ f =>
      have hge : ¬ d < MAX_DELAY := by simpa using hk
      simp [incLoop, hge]
  | succ k ih =>
    have hlt : d < MAX_DELAY := by simpa using hmin 0 (Nat.succ_pos k)
    cases fuel with
    | zero => simp [incLoop]
    | succ f =>
      have hk2 : MAX_DELAY ≤ d + DELAY_STEP + DELAY_STEP * k := by
        rw [Nat.mul_succ] at hk
        omega
      have hmin2 : ∀ j, j < k → d + DELAY_STEP + DELAY_STEP * j < MAX_DELAY := by
        intro j hj
        have := hmin (j + 1) (Nat.succ_lt_succ hj)
        rw [Nat.mul_succ] at this
        omega
      rw [incLoop, if_pos hlt, delayInc_of_lt d hlt, ih _ hk2 hmin2 f]
      simp only [Nat.succ_lt_succ_iff, Nat.mul_succ]
      split_ifs <;> simp
      omega

/-- The downward loop makes exactly `k` iterations when `k` is the least count
that reaches `MIN_DELAY`: it exits with `d - DELAY_STEP * k` as soon as the fuel
allows `k + 1` evaluations of its condition, and not before. -/
theorem decLoop_spec (k d : Nat) (hd : d < UINT32_SIZE)
    (hk : d ≤ MIN_DELAY + DELAY_STEP * k)
    (hmin : ∀ j, j < k → MIN_DELAY + DELAY_STEP * j < d) (fuel : Nat) :
    decLoop fuel d = if k < fuel then some (d - DELAY_STEP * k) else none := by
  induction k generalizing d fuel with
  | zero =>
    cases fuel with
    | zero => simp [decLoop]
    | succ f =>
      have hle : ¬ d > MIN_DELAY := by simpa using hk
      simp [decLoop, hle]
  | succ k ih =>
    have hgt : d > MIN_DELAY := by simpa using hmin 0 (Nat.succ_pos k)
    cases fuel with
    | zero => simp [decLoop]
    | succ f =>
      have hstep : DELAY_STEP ≤ d := by
        simp only [MIN_DELAY, DELAY_STEP] at *
        omega
      have hd2 : d - DELAY_STEP < UINT32_SIZE := by omega
      have hk2 : d - DELAY_STEP ≤ MIN_DELAY + DELAY_STEP * k := by
        rw [Nat.mul_succ] at hk
        omega
      have hmin2 : ∀ j, j < k → MIN_DELAY + DELAY_STEP * j < d - DELAY_STEP := by
        intro j hj
        have := hmin (j + 1) (Nat.succ_lt_succ hj)
        rw [Nat.mul_succ] at this
        omega
      rw [decLoop, if_pos hgt, delayDec_of_gt d hd hgt, ih _ hd2 hk2 hmin2 f]
      simp only [Nat.succ_lt_succ_iff, Nat.mul_succ]
      split_ifs <;> simp
      omega

/-- While the upward loop condition holds, each oscillator step from direction
`UP` is an increment: after `k` such steps `delay` is `d + DELAY_STEP * k` and
the direction is still `UP`. -/
theorem oscRun_up (k d : Nat) (hmin : ∀ j, j < k → d + DELAY_STEP * j < MAX_DELAY) :
    oscRun k ⟨d, UP⟩ = ⟨d + DELAY_STEP * k, UP⟩
      ∧ oscTrace k ⟨d, UP⟩ = List.replicate k OscEvent.inc := by
  induction k generalizing d with
  | zero => exact ⟨rfl, rfl⟩
  | succ k ih =>
    have hlt : d < MAX_DELAY := by simpa using hmin 0 (Nat.succ_pos k)
    have hmin2 : ∀ j, j < k → d + DELAY_STEP + DELAY_STEP * j < MAX_DELAY := by
      intro j hj
      have := hmin (j + 1) (Nat.succ_lt_succ hj)
      rw [Nat.mul_succ] at this
      omega
    have hstep : oscStep ⟨d, UP⟩ = ⟨d + DELAY_STEP, UP⟩ := by
      simp [oscStep, hlt, delayInc_of_lt d hlt]
    have hev : oscEvent ⟨d, UP⟩ = OscEvent.inc := by simp [oscEvent, hlt]
    obtain ⟨h1, h2⟩ := ih (d + DELAY_STEP) hmin2
    refine ⟨?_, ?_⟩
    · rw [oscRun, hstep, h1, Nat.mul_succ]
      congr 1
      omega
    · rw [oscTrace, hstep, hev, h2, List.replicate_succ]

/-- While the downward loop condition holds, each oscillator step from a
direction other than `UP` is a decrement: after `k` such steps `delay` is
`d - DELAY_STEP * k` and the direction is unchanged. -/
theorem oscRun_down (k d dir : Nat) (hdir : dir ≠ UP) (hd : d < UINT32_SIZE)
    (hmin : ∀ j, j < k → MIN_DELAY + DELAY_STEP * j < d) :
    oscRun k ⟨d, dir⟩ = ⟨d - DELAY_STEP * k, dir⟩
      ∧ oscTrace k ⟨d, dir⟩ = List.replicate k OscEvent.dec := by
  induction k generalizing d with
  | zero => exact ⟨rfl, rfl⟩
  | succ k ih =>
    have hgt : d > MIN_DELAY := by simpa using hmin 0 (Nat.succ_pos k)
    have hmin2 : ∀ j, j < k → MIN_DELAY + DELAY_STEP * j < d - DELAY_STEP := by
      intro j hj
      have := hmin (j + 1) (Nat.succ_lt_succ hj)
      rw [Nat.mul_succ] at this
      omega
    have hstep : oscStep ⟨d, dir⟩ = ⟨d - DELAY_STEP, dir⟩ := by
      simp [oscStep, hdir, hgt, delayDec_of_gt d hd hgt]
    have hev : oscEvent ⟨d, dir⟩ = OscEvent.dec := by simp [oscEvent, hdir, hgt]
    obtain ⟨h1, h2⟩ := ih (d - DELAY_STEP) (by omega) hmin2
    refine ⟨?_, ?_⟩
    · rw [oscRun, hstep, h1, Nat.mul_succ]
      congr 1
      omega
    · rw [oscTrace, hstep, hev, h2, List.replicate_succ]

/-- C13: for every `uint32_t` value `d` of `delay`, one pass of the outer loop
of `speed_controller_task` started with direction `UP` adds `DELAY_STEP`
exactly `k` times, `k` being the least natural number with
`d + 15 * k >= MAX_DELAY` (0 when `d >= 300`), and ends with direction `DOWN`;
started with any direction other than `UP` it subtracts `DELAY_STEP` exactly
`k` times, `k` being the least natural number with `d - 15 * k <= MIN_DELAY`
(0 when `d <= 25`), and ends with direction `UP`. The pass terminates exactly
when the fuel allows `k + 1` evaluations of the loop condition, and the
direction is unchanged during the first `k` steps. -/
theorem speed_pass_function (d dir : Nat) (hd : d < UINT32_SIZE) (hdir : dir ≠ UP) :
    (MAX_DELAY ≤ d + DELAY_STEP * upCount d
        ∧ (∀ j, j < upCount d → d + DELAY_STEP * j < MAX_DELAY)
        ∧ (MAX_DELAY ≤ d → upCount d = 0))
      ∧ (d ≤ MIN_DELAY + DELAY_STEP * downCount d
        ∧ (∀ j, j < downCount d → MIN_DELAY + DELAY_STEP * j < d)
        ∧ (d ≤ MIN_DELAY → downCount d = 0))
      ∧ ((∀ fuel, speedPass fuel ⟨d, UP⟩
            = if upCount d < fuel then some ⟨d + DELAY_STEP * upCount d, DOWN⟩ else none)
        ∧ oscTrace (upCount d + 1) ⟨d, UP⟩
            = List.replicate (upCount d) OscEvent.inc ++ [OscEvent.flip]
        ∧ (∀ j, j ≤ upCount d → oscRun j ⟨d, UP⟩ = ⟨d + DELAY_STEP * j, UP⟩)
        ∧ oscRun (upCount d + 1) ⟨d, UP⟩ = ⟨d + DELAY_STEP * upCount d, DOWN⟩)
      ∧ ((∀ fuel, speedPass fuel ⟨d, dir⟩
            = if downCount d < fuel then some ⟨d - DELAY_STEP * downCount d, UP⟩ else none)
        ∧ oscTrace (downCount d + 1) ⟨d, dir⟩
            = List.replicate (downCount d) OscEvent.dec ++ [OscEvent.flip]
        ∧ (∀ j, j ≤ downCount d → oscRun j ⟨d, dir⟩ = ⟨d - DELAY_STEP * j, dir⟩)
        ∧ oscRun (downCount d + 1) ⟨d, dir⟩ = ⟨d - DELAY_STEP * downCount d, UP⟩) := by
  obtain ⟨hu1, hu2⟩ := upCount_least d
  obtain ⟨hd1, hd2⟩ := downCount_least d
  have hu0 : MAX_DELAY ≤ d → upCount d = 0 := by
    intro h
    simp only [upCount, MAX_DELAY, DELAY_STEP] at *
    omega
  have hd0 : d ≤ MIN_DELAY → downCount d = 0 := by
    intro h
    simp only [downCount, MIN_DELAY, DELAY_STEP] at *
    omega
  have hupStop : ¬ d + DELAY_STEP * upCount d < MAX_DELAY := by omega
  have hdownStop : ¬ d - DELAY_STEP * downCount d > MIN_DELAY := by omega
  obtain ⟨hur, hut⟩ := oscRun_up (upCount d) d hu2
  obtain ⟨hdr, hdt⟩ := oscRun_down (downCount d) d dir hdir hd hd2
  refine ⟨⟨hu1, hu2, hu0⟩, ⟨hd1, hd2, hd0⟩, ⟨?_, ?_, ?_, ?_⟩, ⟨?_, ?_, ?_, ?_⟩⟩
  · intro fuel
    rw [speedPass, if_pos rfl, incLoop_spec (upCount d) d hu1 hu2 fuel]
    split_ifs <;> rfl
  · rw [oscTrace_add, hut, hur]
    simp [oscTrace, oscEvent, hupStop]
  · intro j hj
    exact (oscRun_up j d (fun i hi => hu2 i (by omega))).1
  · rw [oscRun_add, hur]
    simp [oscRun, oscStep, hupStop]
  · intro fuel
    rw [speedPass, if_neg hdir, decLoop_spec (downCount d) d hd hd1 hd2 fuel]
    split_ifs <;> rfl
  · rw [oscTrace_add, hdt, hdr]
    simp [oscTrace, oscEvent, hdir, hdownStop]
  · intro j hj
    exact (oscRun_down j d dir hdir hd (fun i hi => hd2 i (by omega))).1
  · rw [oscRun_add, hdr]
    simp [oscRun, oscStep, hdir, hdownStop]

/-- Witness of C13 at `delay = 100`: upwards 14 additions lead to 310,
downwards (direction `DOWN`) 5 subtractions lead to 25. -/
theorem speed_pass_function_witness :
    (100 < UINT32_SIZE ∧ DOWN ≠ UP ∧ upCount 100 = 14 ∧ downCount 100 = 5
      ∧ speedPass 15 ⟨100, UP⟩ = some ⟨310, DOWN⟩
      ∧ speedPass 6 ⟨100, DOWN⟩ = some ⟨25, UP⟩)
      ∧ (MAX_DELAY ≤ 100 + DELAY_STEP * upCount 100
          ∧ (∀ j, j < upCount 100 → 100 + DELAY_STEP * j < MAX_DELAY)
          ∧ (MAX_DELAY ≤ 100 → upCount 100 = 0))
        ∧ (100 ≤ MIN_DELAY + DELAY_STEP * downCount 100
          ∧ (∀ j, j < downCount 100 → MIN_DELAY + DELAY_STEP * j < 100)
          ∧ (100 ≤ MIN_DELAY → downCount 100 = 0))
        ∧ ((∀ fuel, speedPass fuel ⟨100, UP⟩
              = if upCount 100 < fuel then some ⟨100 + DELAY_STEP * upCount 100, DOWN⟩ else none)
          ∧ oscTrace (upCount 100 + 1) ⟨100, UP⟩
              = List.replicate (upCount 100) OscEvent.inc ++ [OscEvent.flip]
          ∧ (∀ j, j ≤ upCount 100 → oscRun j ⟨100, UP⟩ = ⟨100 + DELAY_STEP * j, UP⟩)
          ∧ oscRun (upCount 100 + 1) ⟨100, UP⟩ = ⟨100 + DELAY_STEP * upCount 100, DOWN⟩)
        ∧ ((∀ fuel, speedPass fuel ⟨100, DOWN⟩
              = if downCount 100 < fuel then some ⟨100 - DELAY_STEP * downCount 100, UP⟩ else none)
          ∧ oscTrace (downCount 100 + 1) ⟨100, DOWN⟩
              = List.replicate (downCount 100) OscEvent.dec ++ [OscEvent.flip]
          ∧ (∀ j, j ≤ downCount 100 → oscRun j ⟨100, DOWN⟩ = ⟨100 - DELAY_STEP * j, DOWN⟩)
          ∧ oscRun (downCount 100 + 1) ⟨100, DOWN⟩ = ⟨100 - DELAY_STEP * downCount 100, UP⟩) :=
  ⟨by decide, speed_pass_function 100 DOWN (by decide) (by decide)⟩

/-! ## Reachable values, overshoot and period -/

/-- C15: from `delay = 300`, `direction = UP`, every value `delay` ever takes is
a multiple of 15 between 15 and 300, every such multiple is taken, and the
smallest value taken is 15, reached by the decrement from 30; hence the delay
read by `led_controller_task` for its sleep is never 0 and never above 300. -/
theorem reachable_delays :
    (∀ n, 15 ∣ (oscRun n oscInit).delay ∧ 15 ≤ (oscRun n oscInit).delay
        ∧ (oscRun n oscInit).delay ≤ 300)
      ∧ (∀ m, 15 ∣ m → 15 ≤ m → m ≤ 300 → ∃ n, (oscRun n oscInit).delay = m)
      ∧ (oscRun 19 oscInit = ⟨30, DOWN⟩ ∧ oscEvent (oscRun 19 oscInit) = OscEvent.dec
        ∧ oscRun 20 oscInit = ⟨15, DOWN⟩)
      ∧ (∀ n (p : Prog), p.delay = (oscRun n oscInit).delay →
          0 < (ledTaskIter p).2 ∧ (ledTaskIter p).2 ≤ 300) := by
  have hall : ∀ n, 15 ∣ (oscRun n oscInit).delay ∧ 15 ≤ (oscRun n oscInit).delay
      ∧ (oscRun n oscInit).delay ≤ 300 :=
    fun n => oscRun_forall (fun s => 15 ∣ s.delay ∧ 15 ≤ s.delay ∧ s.delay ≤ 300)
      (by decide) n
  have hreach : ∀ j, j < 21 → 1 ≤ j → (oscRun (21 - j) oscInit).delay = 15 * j := by
    decide
  refine ⟨hall, ?_, by decide, ?_⟩
  · intro m hdvd hlo hhi
    obtain ⟨j, rfl⟩ := hdvd
    exact ⟨21 - j, hreach j (by omega) (by omega)⟩
  · intro n p hp
    obtain ⟨_, hlo, hhi⟩ := hall n
    simp only [ledTaskIter, hp]
    omega

/-- One oscillator step keeps `delay` within `[MIN_DELAY - 14, MAX_DELAY + 14]`. -/
theorem oscStep_overshoot (s : Osc) (hlo : MIN_DELAY - 14 ≤ s.delay)
    (hhi : s.delay ≤ MAX_DELAY + 14) :
    MIN_DELAY - 14 ≤ (oscStep s).delay ∧ (oscStep s).delay ≤ MAX_DELAY + 14 := by
  obtain ⟨d, dir⟩ := s
  simp only [oscStep, delayInc, delayDec, UINT32_SIZE, MAX_DELAY, MIN_DELAY, DELAY_STEP]
    at *
  split_ifs <;> simp only [] <;> omega

/-- C16: the interval `[MIN_DELAY - 14, MAX_DELAY + 14] = [11, 314]` is closed
under the oscillator: for every `delay` in it and every direction, `delay`
stays in it after any number of steps; and both ends are attained from starts
inside `[25, 300]`: 26 with direction `DOWN` reaches 11, 299 with direction
`UP` reaches 314. -/
theorem overshoot_interval (s : Osc) (n : Nat) (hlo : MIN_DELAY - 14 ≤ s.delay)
    (hhi : s.delay ≤ MAX_DELAY + 14) :
    (MIN_DELAY - 14 ≤ (oscRun n s).delay ∧ (oscRun n s).delay ≤ MAX_DELAY + 14)
      ∧ (MIN_DELAY - 14 = 11 ∧ MAX_DELAY + 14 = 314)
      ∧ (oscRun 1 ⟨26, DOWN⟩).delay = 11
      ∧ (oscRun 1 ⟨299, UP⟩).delay = 314 := by
  refine ⟨?_, by decide, by decide, by decide⟩
  induction n generalizing s with
  | zero => exact ⟨hlo, hhi⟩
  | succ n ih =>
    obtain ⟨h1, h2⟩ := oscStep_overshoot s hlo hhi
    exact ih (oscStep s) h1 h2

/-- Witness of C16 from `delay = 26`, direction `DOWN`, run for 100 steps. -/
theorem overshoot_interval_witness :
    (MIN_DELAY - 14 ≤ 26 ∧ 26 ≤ MAX_DELAY + 14)
      ∧ (MIN_DELAY - 14 ≤ (oscRun 100 ⟨26, DOWN⟩).delay
        ∧ (oscRun 100 ⟨26, DOWN⟩).delay ≤ MAX_DELAY + 14)
      ∧ (MIN_DELAY - 14 = 11 ∧ MAX_DELAY + 14 = 314)
      ∧ (oscRun 1 ⟨26, DOWN⟩).delay = 11
      ∧ (oscRun 1 ⟨299, UP⟩).delay = 314 :=
  ⟨by decide, overshoot_interval ⟨26, DOWN⟩ 100 (by decide) (by decide)⟩

/-- C17: for every `uint32_t` value of `delay`, the loop
`while(delay < MAX_DELAY) delay += DELAY_STEP` exits after at most 20
iterations (20 being needed from 0), the loop
`while(delay > MIN_DELAY) delay -= DELAY_STEP` exits as well, no update wraps
around (an addition happens only below 300, a subtraction only above
25 >= 15), and so a pass of the outer loop from either direction reaches its
direction flip. -/
theorem inner_loops_terminate (d dir : Nat) (hd : d < UINT32_SIZE) :
    (upCount d ≤ 20 ∧ incLoop 21 d = some (d + DELAY_STEP * upCount d)
        ∧ incLoop 21 0 = some 300 ∧ incLoop 20 0 = none)
      ∧ decLoop (downCount d + 1) d = some (d - DELAY_STEP * downCount d)
      ∧ (d < MAX_DELAY → delayInc d = d + DELAY_STEP ∧ d + DELAY_STEP < UINT32_SIZE)
      ∧ (MIN_DELAY < d → DELAY_STEP ≤ d ∧ delayDec d + DELAY_STEP = d)
      ∧ (∃ fuel s, speedPass fuel ⟨d, dir⟩ = some s
          ∧ s.direction = (if dir = UP then DOWN else UP)) := by
  obtain ⟨hu1, hu2⟩ := upCount_least d
  obtain ⟨hd1, hd2⟩ := downCount_least d
  have hcount : upCount d ≤ 20 := by
    simp only [upCount, MAX_DELAY, DELAY_STEP]
    omega
  have hinc := incLoop_spec (upCount d) d hu1 hu2
  have hdec := decLoop_spec (downCount d) d hd hd1 hd2
  refine ⟨⟨hcount, ?_, by decide, by decide⟩, ?_, ?_, ?_, ?_⟩
  · rw [hinc 21, if_pos (by omega)]
  · rw [hdec (downCount d + 1), if_pos (Nat.lt_succ_self _)]
  · intro h
    refine ⟨delayInc_of_lt d h, ?_⟩
    simp only [UINT32_SIZE, MAX_DELAY, DELAY_STEP] at *
    omega
  · intro h
    have hge : DELAY_STEP ≤ d := by
      simp only [MIN_DELAY, DELAY_STEP] at *
      omega
    refine ⟨hge, ?_⟩
    rw [delayDec_of_gt d hd h]
    omega
  · by_cases hdir : dir = UP
    · refine ⟨21, ⟨d + DELAY_STEP * upCount d, DOWN⟩, ?_, by simp [hdir]⟩
      rw [speedPass, if_pos (by simpa using hdir), hinc 21, if_pos (by omega)]
      rfl
    · refine ⟨downCount d + 1, ⟨d - DELAY_STEP * downCount d, UP⟩, ?_, by simp [hdir]⟩
      rw [speedPass, if_neg (by simpa using hdir), hdec (downCount d + 1),
        if_pos (Nat.lt_succ_self _)]
      rfl

/-- Witness of C17 at the largest `uint32_t` value with direction `DOWN`: the
downward pass exits without wrapping. -/
theorem inner_loops_terminate_witness :
    4294967295 < UINT32_SIZE
      ∧ (upCount 4294967295 ≤ 20
        ∧ incLoop 21 4294967295 = some (4294967295 + DELAY_STEP * upCount 4294967295)
        ∧ incLoop 21 0 = some 300 ∧ incLoop 20 0 = none)
      ∧ decLoop (downCount 4294967295 + 1) 4294967295
        = some (4294967295 - DELAY_STEP * downCount 4294967295)
      ∧ (4294967295 < MAX_DELAY →
        delayInc 4294967295 = 4294967295 + DELAY_STEP
          ∧ 4294967295 + DELAY_STEP < UINT32_SIZE)
      ∧ (MIN_DELAY < 4294967295 →
        DELAY_STEP ≤ 4294967295 ∧ delayDec 4294967295 + DELAY_STEP = 4294967295)
      ∧ (∃ fuel s, speedPass fuel ⟨4294967295, DOWN⟩ = some s
          ∧ s.direction = (if DOWN = UP then DOWN else UP)) :=
  ⟨by decide, inner_loops_terminate 4294967295 DOWN (by decide)⟩

/-- C18: from `delay = 300`, `direction = UP`, the state `(300, UP)` recurs for
the first time after exactly 40 evaluations of an inner-loop condition, made of
one flip, 19 decrements down to 15, one flip and 19 increments back to 300,
that is 38 updates of `delay` and 2 flips; from then on the state sequence is
periodic with that period. -/
theorem actual_period :
    oscRun 40 oscInit = oscInit
      ∧ (∀ n, 0 < n → n < 40 → oscRun n oscInit ≠ oscInit)
      ∧ oscUpdates 40 oscInit = 38
      ∧ oscFlips 40 oscInit = 2
      ∧ oscTrace 40 oscInit
        = OscEvent.flip :: (List.replicate 19 OscEvent.dec
            ++ OscEvent.flip :: List.replicate 19 OscEvent.inc)
      ∧ (oscRun 20 oscInit = ⟨15, DOWN⟩ ∧ oscRun 21 oscInit = ⟨15, UP⟩)
      ∧ (∀ n, oscRun (n + 40) oscInit = oscRun n oscInit) := by
  have hfirst : ∀ n, n < 40 → 0 < n → oscRun n oscInit ≠ oscInit := by decide
  refine ⟨by decide, fun n hpos hlt => hfirst n hlt hpos, by decide, by decide, by decide,
    by decide, ?_⟩
  intro n
  rw [Nat.add_comm, oscRun_add, oscRun_forty]

end Homework
